import Mathlib

/-!
# Verification of the mapx concurrent map library (sequential semantics)

The repository provides two copy-on-write concurrent map engines over a
generic key/value domain:

* `CASMap` (cas_map.go): an `atomic.Pointer` to an immutable snapshot,
  written via a compare-and-swap retry loop;
* `RWMutexMap`: an `atomic.Value` holding the snapshot pointer, written
  under a mutex.

Both engines hold one cell pointing at an immutable snapshot (a complete
Go `map[K]V`); every write builds a full copy of the snapshot, mutates
the copy and publishes it atomically.  Executed by a single caller with
no concurrency, the CAS in `CASMap` always succeeds on its first
attempt (nobody else ever republishes the cell between the load and the
CAS) and the mutex in `RWMutexMap` is always free, so each method
collapses to a pure function from the loaded snapshot to the published
snapshot plus a return value.  This file embeds those pure functions.

A snapshot is modelled as an association list `List (K × V)` with
no duplicate keys (the shape every run of the Go code maintains: the
initial map is empty and each write is a copy followed by one
`m[k] = v` or one `delete(m, k)`).  Go map iteration order is
unspecified; the list order is a concrete choice of one such order, and
`Keys` / `Values` / `Range` make no ordering promise beyond it.
-/

namespace Mapx

variable {K V : Type} [DecidableEq K]

/-- Lookup in a snapshot: `v, ok := data[key]` with `ok = true`.
Returns the value stored under the first (with no duplicate keys: the
only) occurrence of the key. -/
def goLookup (k : K) : List (K × V) → Option V
  | [] => none
  | (k', v) :: rest => if k = k' then some v else goLookup k rest

/-- Upsert in a (copied) snapshot: `newMap[key] = value`.  If the key is
present its binding is overwritten in place, otherwise the new binding
is appended. -/
def goInsert (k : K) (v : V) : List (K × V) → List (K × V)
  | [] => [(k, v)]
  | (k', v') :: rest =>
    if k = k' then (k, v) :: rest else (k', v') :: goInsert k v rest

/-- Removal from a (copied) snapshot: `delete(newMap, key)`. -/
def goErase (k : K) : List (K × V) → List (K × V)
  | [] => []
  | (k', v') :: rest =>
    if k = k' then rest else (k', v') :: goErase k rest

/-- The keys of a snapshot, in iteration order. -/
def keysOf (l : List (K × V)) : List K := l.map Prod.fst

/-- The well-formedness invariant of a Go map snapshot: no key occurs
twice. -/
def NodupKeys (l : List (K × V)) : Prop := (keysOf l).Nodup

instance (l : List (K × V)) : Decidable (NodupKeys l) := by
  unfold NodupKeys; infer_instance

/-- The `range` loop of `Range(f)`: visit each entry of the snapshot in
iteration order, calling `f`; stop after the first entry on which `f`
returns `false`.  Returns the list of entries on which `f` was invoked. -/
def goRange (f : K → V → Bool) : List (K × V) → List (K × V)
  | [] => []
  | (k, v) :: rest => if f k v then (k, v) :: goRange f rest else [(k, v)]

/-- The `range` loop of `Range(f)` when the callback also mutates state
of type `σ` (for example, the very container being ranged over): the
loop still walks the snapshot loaded at call entry, threading the state
through the callback invocations.  Returns the visited entries and the
final state. -/
def goRangeEff {σ : Type} (f : K → V → σ → Bool × σ) :
    List (K × V) → σ → List (K × V) × σ
  | [], s => ([], s)
  | (k, v) :: rest, s =>
    let r := f k v s
    if r.1 then
      let rec' := goRangeEff f rest r.2
      ((k, v) :: rec'.1, rec'.2)
    else ([(k, v)], r.2)

/-- The helper `compare[V any](a, b V) bool`, on a value type `V` whose
values are runtime-comparable: `any(a) == any(b)` is then Go value
equality. -/
def compare [DecidableEq V] (a b : V) : Bool := decide (a = b)

/-! ## The CAS engine (cas_map.go), sequential semantics

`CASMap` stores `data atomic.Pointer[map[K]V]`.  Sequentially the cell
holds exactly the current snapshot; each retry loop runs once and its
CAS succeeds. -/

structure CASMap (K V : Type) where
  data : List (K × V)

namespace CASMap

variable [DecidableEq K]

/-- Embeds `NewCASMap` (and `NewCASMapWithCapacity`: the capacity hint does not
affect contents): the cell holds a fresh empty snapshot. -/
def New : CASMap K V := ⟨[]⟩

/-- Embeds `load`: dereference the atomic pointer. -/
def load (m : CASMap K V) : List (K × V) := m.data

/-- Embeds `Get`: lock-free load, then `value, ok := data[key]`.  Returns the
zero value of `V` (modelled by `default`) and `false` when absent. -/
def Get [Inhabited V] (m : CASMap K V) (k : K) : V × Bool :=
  ((goLookup k m.load).getD default, (goLookup k m.load).isSome)

/-- Embeds `Set`: load, copy with `k ↦ v`, CAS-publish (succeeds first try
sequentially). -/
def Set (m : CASMap K V) (k : K) (v : V) : CASMap K V :=
  ⟨goInsert k v m.load⟩

/-- Embeds `Delete`: load; return early with no copy and no CAS attempt if the
key is absent; otherwise copy without the key and CAS-publish. -/
def Delete (m : CASMap K V) (k : K) : CASMap K V :=
  match goLookup k m.load with
  | none => m
  | some _ => ⟨goErase k m.load⟩

/-- Embeds `Len`: size of the loaded snapshot. -/
def Len (m : CASMap K V) : Nat := m.load.length

/-- Embeds `Has`: presence in the loaded snapshot. -/
def Has (m : CASMap K V) (k : K) : Bool := (goLookup k m.load).isSome

/-- Embeds `Clear`: unconditionally store a fresh empty snapshot. -/
def Clear (_ : CASMap K V) : CASMap K V := ⟨[]⟩

/-- Embeds `Range(f)`: load one snapshot, iterate it, stop early on `false`.
Returns the entries on which `f` was invoked. -/
def Range (m : CASMap K V) (f : K → V → Bool) : List (K × V) :=
  goRange f m.load

/-- Embeds `Range(f)` where the callback may also mutate the container (or any
other state): the iteration is still over the snapshot loaded at call
entry.  Returns the visited entries and the final state. -/
def RangeEff {σ : Type} (m : CASMap K V) (f : K → V → σ → Bool × σ)
    (s : σ) : List (K × V) × σ :=
  goRangeEff f m.load s

/-- Embeds `Keys`: materialize the keys of one loaded snapshot into a fresh
slice. -/
def Keys (m : CASMap K V) : List K := m.load.map Prod.fst

/-- Embeds `Values`: materialize the values of one loaded snapshot into a
fresh slice. -/
def Values (m : CASMap K V) : List V := m.load.map Prod.snd

/-- Embeds `GetOrSet`: fast path returns `(existing, true)` on a hit; slow
path (sequentially: the double-check re-reads the same snapshot) builds
a copy with `k ↦ v`, publishes it and returns `(v, false)`. -/
def GetOrSet (m : CASMap K V) (k : K) (v : V) : (V × Bool) × CASMap K V :=
  match goLookup k m.load with
  | some v0 => ((v0, true), m)
  | none => ((v, false), ⟨goInsert k v m.load⟩)

/-- Embeds `SetIfAbsent`: return `false` leaving the map alone when the key is
present; otherwise install `k ↦ v` and return `true`. -/
def SetIfAbsent (m : CASMap K V) (k : K) (v : V) : Bool × CASMap K V :=
  match goLookup k m.load with
  | some _ => (false, m)
  | none => (true, ⟨goInsert k v m.load⟩)

/-- Embeds `CompareAndSwap`: fail with `false` (no retry, no copy) when the key
is absent or the stored value is not `compare`-equal to `oldValue`;
otherwise publish a copy with `k ↦ newValue` and return `true`. -/
def CompareAndSwap [DecidableEq V] (m : CASMap K V) (k : K)
    (vOld vNew : V) : Bool × CASMap K V :=
  match goLookup k m.load with
  | none => (false, m)
  | some cur =>
    if compare cur vOld then (true, ⟨goInsert k vNew m.load⟩)
    else (false, m)

end CASMap

/-! ## The mutex engine, sequential semantics

`RWMutexMap` stores `mu sync.Mutex` and `data atomic.Value` holding a
snapshot pointer.  Sequentially the lock is always free, so acquiring
and releasing it is a no-op; each write is load, copy, mutate, store. -/

structure RWMutexMap (K V : Type) where
  data : List (K × V)

namespace RWMutexMap

variable [DecidableEq K]

/-- Embeds `NewRWMutexMap` (and the capacity variant): a fresh empty snapshot. -/
def New : RWMutexMap K V := ⟨[]⟩

/-- Embeds `load`: dereference the atomically stored pointer. -/
def load (m : RWMutexMap K V) : List (K × V) := m.data

/-- Embeds `Get`: lock-free load, then map lookup with zero value on miss. -/
def Get [Inhabited V] (m : RWMutexMap K V) (k : K) : V × Bool :=
  ((goLookup k m.load).getD default, (goLookup k m.load).isSome)

/-- Embeds `Set`: lock, load, copy with `k ↦ v`, store, unlock. -/
def Set (m : RWMutexMap K V) (k : K) (v : V) : RWMutexMap K V :=
  ⟨goInsert k v m.load⟩

/-- Embeds `Delete`: lock, load; return early (no copy) if the key is absent;
otherwise copy without the key and store. -/
def Delete (m : RWMutexMap K V) (k : K) : RWMutexMap K V :=
  match goLookup k m.load with
  | none => m
  | some _ => ⟨goErase k m.load⟩

/-- Embeds `Len`: size of the loaded snapshot. -/
def Len (m : RWMutexMap K V) : Nat := m.load.length

/-- Embeds `Has`: presence in the loaded snapshot. -/
def Has (m : RWMutexMap K V) (k : K) : Bool := (goLookup k m.load).isSome

/-- Embeds `Clear`: lock, store a fresh empty snapshot, unlock. -/
def Clear (_ : RWMutexMap K V) : RWMutexMap K V := ⟨[]⟩

/-- Embeds `Range(f)`: load one snapshot (without taking the lock), iterate it,
stop early on `false`. -/
def Range (m : RWMutexMap K V) (f : K → V → Bool) : List (K × V) :=
  goRange f m.load

/-- Embeds `Range(f)` with a state-mutating callback; the iteration is over
the snapshot loaded at entry, and since `Range` never takes `mu`, a
write method called inside `f` does not self-block. -/
def RangeEff {σ : Type} (m : RWMutexMap K V) (f : K → V → σ → Bool × σ)
    (s : σ) : List (K × V) × σ :=
  goRangeEff f m.load s

/-- Embeds `Keys`: the keys of one loaded snapshot, as a fresh slice. -/
def Keys (m : RWMutexMap K V) : List K := m.load.map Prod.fst

/-- Embeds `Values`: the values of one loaded snapshot, as a fresh slice. -/
def Values (m : RWMutexMap K V) : List V := m.load.map Prod.snd

/-- Embeds `GetOrSet`: lock-free fast path on a hit; slow path takes the lock,
double-checks (sequentially the same snapshot), installs `k ↦ v` and
returns `(v, false)`. -/
def GetOrSet (m : RWMutexMap K V) (k : K) (v : V) :
    (V × Bool) × RWMutexMap K V :=
  match goLookup k m.load with
  | some v0 => ((v0, true), m)
  | none => ((v, false), ⟨goInsert k v m.load⟩)

/-- Embeds `SetIfAbsent`: under the lock, `false` when present, else install
and return `true`. -/
def SetIfAbsent (m : RWMutexMap K V) (k : K) (v : V) :
    Bool × RWMutexMap K V :=
  match goLookup k m.load with
  | some _ => (false, m)
  | none => (true, ⟨goInsert k v m.load⟩)

/-- Embeds `CompareAndSwap`: under the lock, `false` when absent or the stored
value is not `compare`-equal to `oldValue`; else publish a copy with
`k ↦ newValue` and return `true`. -/
def CompareAndSwap [DecidableEq V] (m : RWMutexMap K V) (k : K)
    (vOld vNew : V) : Bool × RWMutexMap K V :=
  match goLookup k m.load with
  | none => (false, m)
  | some cur =>
    if compare cur vOld then (true, ⟨goInsert k vNew m.load⟩)
    else (false, m)

end RWMutexMap

/-! ## The reference model: a plain non-concurrent mapping

Modelled from the spec: the spec testable property "Sequential
equivalence" compares both engines against "a plain non-concurrent
mapping", which it does not implement; we model it as a bare function
from keys to optional values with the operation contract of section 6
read off the spec tables. -/

/-- Modelled from the spec: a plain non-concurrent mapping from keys to
values, the baseline of the sequential-equivalence property. -/
def RefMap (K V : Type) : Type := K → Option V

/-- Modelled from the spec: the empty plain mapping. -/
def refEmpty : RefMap K V := fun _ => none

/-- Modelled from the spec: upsert on the plain mapping. -/
def refSet [DecidableEq K] (r : RefMap K V) (k : K) (v : V) : RefMap K V :=
  fun k2 => if k2 = k then some v else r k2

/-- Modelled from the spec: removal on the plain mapping (no-op when
absent). -/
def refDelete [DecidableEq K] (r : RefMap K V) (k : K) : RefMap K V :=
  fun k2 => if k2 = k then none else r k2

/-! ## Operation sequences and observable outputs -/

/-- One mutating API call (the operations claim C1 quantifies over). -/
inductive Op (K V : Type) where
  | set (k : K) (v : V)
  | del (k : K)
  | clear
  | getOrSet (k : K) (v : V)
  | setIfAbsent (k : K) (v : V)
  | cas (k : K) (vOld vNew : V)

/-- The observable return value of one mutating API call. -/
inductive Out (V : Type) where
  | unit
  | got (v : V) (existed : Bool)
  | flag (b : Bool)

/-- Execute one call on the CAS engine: new state and returned value. -/
def stepCAS [DecidableEq K] [DecidableEq V] (m : CASMap K V) :
    Op K V → CASMap K V × Out V
  | .set k v => (m.Set k v, .unit)
  | .del k => (m.Delete k, .unit)
  | .clear => (m.Clear, .unit)
  | .getOrSet k v =>
    let r := m.GetOrSet k v
    (r.2, .got r.1.1 r.1.2)
  | .setIfAbsent k v =>
    let r := m.SetIfAbsent k v
    (r.2, .flag r.1)
  | .cas k a b =>
    let r := m.CompareAndSwap k a b
    (r.2, .flag r.1)

/-- Execute one call on the mutex engine: new state and returned value. -/
def stepRWM [DecidableEq K] [DecidableEq V] (m : RWMutexMap K V) :
    Op K V → RWMutexMap K V × Out V
  | .set k v => (m.Set k v, .unit)
  | .del k => (m.Delete k, .unit)
  | .clear => (m.Clear, .unit)
  | .getOrSet k v =>
    let r := m.GetOrSet k v
    (r.2, .got r.1.1 r.1.2)
  | .setIfAbsent k v =>
    let r := m.SetIfAbsent k v
    (r.2, .flag r.1)
  | .cas k a b =>
    let r := m.CompareAndSwap k a b
    (r.2, .flag r.1)

/-- Modelled from the spec: execute one call on the plain non-concurrent
mapping, with the return semantics of the operation table of spec
section 6 (upsert; no-op delete; get-or-set returns the existing value
and an existed flag; set-if-absent reports installation; CAS succeeds
exactly on a value-equal hit). -/
def stepRef [DecidableEq K] [DecidableEq V] (r : RefMap K V) :
    Op K V → RefMap K V × Out V
  | .set k v => (refSet r k v, .unit)
  | .del k => (refDelete r k, .unit)
  | .clear => (refEmpty, .unit)
  | .getOrSet k v =>
    match r k with
    | some v0 => (r, .got v0 true)
    | none => (refSet r k v, .got v false)
  | .setIfAbsent k v =>
    match r k with
    | some _ => (r, .flag false)
    | none => (refSet r k v, .flag true)
  | .cas k a b =>
    match r k with
    | none => (r, .flag false)
    | some cur => if cur = a then (refSet r k b, .flag true) else (r, .flag false)

/-- Run a call sequence on the CAS engine from a given state, collecting
the outputs. -/
def runCASFrom [DecidableEq K] [DecidableEq V] (m : CASMap K V) :
    List (Op K V) → CASMap K V × List (Out V)
  | [] => (m, [])
  | op :: ops =>
    let s := stepCAS m op
    let rest := runCASFrom s.1 ops
    (rest.1, s.2 :: rest.2)

/-- Run a call sequence on the mutex engine from a given state. -/
def runRWMFrom [DecidableEq K] [DecidableEq V] (m : RWMutexMap K V) :
    List (Op K V) → RWMutexMap K V × List (Out V)
  | [] => (m, [])
  | op :: ops =>
    let s := stepRWM m op
    let rest := runRWMFrom s.1 ops
    (rest.1, s.2 :: rest.2)

/-- Modelled from the spec: run a call sequence on the plain mapping. -/
def runRefFrom [DecidableEq K] [DecidableEq V] (r : RefMap K V) :
    List (Op K V) → RefMap K V × List (Out V)
  | [] => (r, [])
  | op :: ops =>
    let s := stepRef r op
    let rest := runRefFrom s.1 ops
    (rest.1, s.2 :: rest.2)

/-- Run a call sequence on a freshly constructed CAS engine. -/
def runCAS [DecidableEq K] [DecidableEq V] (ops : List (Op K V)) :
    CASMap K V × List (Out V) :=
  runCASFrom CASMap.New ops

/-- Run a call sequence on a freshly constructed mutex engine. -/
def runRWM [DecidableEq K] [DecidableEq V] (ops : List (Op K V)) :
    RWMutexMap K V × List (Out V) :=
  runRWMFrom RWMutexMap.New ops

/-- Modelled from the spec: run a call sequence on the empty plain
mapping. -/
def runRef [DecidableEq K] [DecidableEq V] (ops : List (Op K V)) :
    RefMap K V × List (Out V) :=
  runRefFrom refEmpty ops

/-- The simulation relation between an engine snapshot and the plain
mapping: the snapshot is well formed and lookup agrees everywhere. -/
def Agree [DecidableEq K] (l : List (K × V)) (r : RefMap K V) : Prop :=
  NodupKeys l ∧ ∀ k, goLookup k l = r k

/-! ## Go interface-level equality (for the compare helper)

The helper `compare[V any](a, b V) bool` is the single expression
`any(a) == any(b)`: Go interface equality.  At runtime, two interface
values with different dynamic types compare unequal; two with the same
comparable dynamic type compare by value; and comparing two values of
the same non-comparable dynamic type panics.  `GoValue α` models a Go
value that is either of some comparable dynamic type (the comparable
fragment is collected in `α`, which carries decidable equality) or of a
non-comparable dynamic type identified by a tag. -/

inductive GoValue (α : Type) where
  | cmp (a : α)
  | noncmp (tag : Nat)
  deriving DecidableEq

/-- Whether a runtime value is of a comparable dynamic type, i.e. has
well-defined equality semantics. -/
def comparableVal {α : Type} : GoValue α → Bool
  | .cmp _ => true
  | .noncmp _ => false

/-- Embeds `any(a) == any(b)` with the fault made explicit: `.error` is the
runtime panic on comparing two values of one non-comparable dynamic
type. -/
def goEqAny {α : Type} [DecidableEq α] :
    GoValue α → GoValue α → Except String Bool
  | .cmp a, .cmp b => .ok (decide (a = b))
  | .cmp _, .noncmp _ => .ok false
  | .noncmp _, .cmp _ => .ok false
  | .noncmp t, .noncmp u =>
    if t = u then .error "runtime error: comparing uncomparable type"
    else .ok false

/-- Embeds `CASMap.CompareAndSwap` with the runtime fault of its `compare`
call made explicit (same source lines as `CASMap.CompareAndSwap`, over
runtime values): `.error` when the interface comparison panics. -/
def CASMap.CompareAndSwapChecked {α : Type} [DecidableEq K] [DecidableEq α]
    (m : CASMap K (GoValue α)) (k : K) (vOld vNew : GoValue α) :
    Except String (Bool × CASMap K (GoValue α)) :=
  match goLookup k m.load with
  | none => .ok (false, m)
  | some cur =>
    match goEqAny cur vOld with
    | .error e => .error e
    | .ok b => if b then .ok (true, ⟨goInsert k vNew m.load⟩) else .ok (false, m)

/-- Embeds `RWMutexMap.CompareAndSwap` with the runtime fault of its `compare`
call made explicit. -/
def RWMutexMap.CompareAndSwapChecked {α : Type} [DecidableEq K] [DecidableEq α]
    (m : RWMutexMap K (GoValue α)) (k : K) (vOld vNew : GoValue α) :
    Except String (Bool × RWMutexMap K (GoValue α)) :=
  match goLookup k m.load with
  | none => .ok (false, m)
  | some cur =>
    match goEqAny cur vOld with
    | .error e => .error e
    | .ok b => if b then .ok (true, ⟨goInsert k vNew m.load⟩) else .ok (false, m)

/-! ## Basic lemmas about snapshot operations -/

theorem goLookup_goInsert [DecidableEq K] (l : List (K × V)) (k k' : K) (v : V) :
    goLookup k' (goInsert k v l) = if k' = k then some v else goLookup k' l := by
  induction l with
  | nil => by_cases h : k' = k <;> simp [goInsert, goLookup, h]
  | cons p rest ih =>
    obtain ⟨k1, v1⟩ := p
    by_cases h : k = k1
    · subst h
      by_cases h2 : k' = k <;> simp [goInsert, goLookup, h2]
    · by_cases h2 : k' = k1
      · subst h2
        have hne : ¬ k' = k := fun hh => h hh.symm
        simp [goInsert, goLookup, h, hne]
      · simp [goInsert, goLookup, h, h2, ih]

theorem goErase_of_not_mem [DecidableEq K] (l : List (K × V)) (k : K)
    (h : k ∉ keysOf l) : goErase k l = l := by
  induction l with
  | nil => rfl
  | cons p rest ih =>
    simp only [keysOf, List.map_cons, List.mem_cons, not_or] at h
    simp [goErase, fun hh => h.1 hh, ih (by simpa [keysOf] using h.2)]

theorem goLookup_eq_none_of_not_mem [DecidableEq K] (l : List (K × V)) (k : K)
    (h : k ∉ keysOf l) : goLookup k l = none := by
  induction l with
  | nil => rfl
  | cons p rest ih =>
    simp only [keysOf, List.map_cons, List.mem_cons, not_or] at h
    simp [goLookup, fun hh => h.1 hh, ih (by simpa [keysOf] using h.2)]

theorem goLookup_isSome_iff_mem [DecidableEq K] (l : List (K × V)) (k : K) :
    (goLookup k l).isSome = true ↔ k ∈ keysOf l := by
  induction l with
  | nil => simp [goLookup, keysOf]
  | cons p rest ih =>
    obtain ⟨k1, v1⟩ := p
    by_cases h : k = k1 <;> simp [goLookup, keysOf, h] <;>
      simpa [keysOf] using ih

theorem goLookup_goErase [DecidableEq K] (l : List (K × V)) (k k' : K)
    (hnd : NodupKeys l) :
    goLookup k' (goErase k l) = if k' = k then none else goLookup k' l := by
  induction l with
  | nil => by_cases h : k' = k <;> simp [goErase, goLookup, h]
  | cons p rest ih =>
    obtain ⟨k1, v1⟩ := p
    have hnd2 : NodupKeys rest := by
      simpa [NodupKeys, keysOf] using (List.nodup_cons.mp hnd).2
    have hk1 : k1 ∉ keysOf rest := by
      simpa [keysOf] using (List.nodup_cons.mp hnd).1
    by_cases h : k = k1
    · subst h
      by_cases h2 : k' = k
      · subst h2
        simp [goErase, goLookup_eq_none_of_not_mem rest k' hk1]
      · simp [goErase, goLookup, h2]
    · by_cases h2 : k' = k1
      · subst h2
        have hne : ¬ k' = k := fun hh => h hh.symm
        simp [goErase, goLookup, h, hne]
      · simp [goErase, goLookup, h, h2, ih hnd2]

theorem keysOf_goInsert [DecidableEq K] (l : List (K × V)) (k k' : K) (v : V) :
    k' ∈ keysOf (goInsert k v l) ↔ k' = k ∨ k' ∈ keysOf l := by
  induction l with
  | nil => simp [goInsert, keysOf]
  | cons p rest ih =>
    obtain ⟨k1, v1⟩ := p
    by_cases h : k = k1
    · subst h
      simp [goInsert, keysOf] <;> tauto
    · simp only [goInsert, if_neg h, keysOf, List.map_cons, List.mem_cons]
      have ih2 : k' ∈ List.map Prod.fst (goInsert k v rest) ↔
          k' = k ∨ k' ∈ List.map Prod.fst rest := ih
      rw [ih2]
      tauto

theorem nodupKeys_goInsert [DecidableEq K] (l : List (K × V)) (k : K) (v : V)
    (hnd : NodupKeys l) : NodupKeys (goInsert k v l) := by
  induction l with
  | nil => simp [goInsert, NodupKeys, keysOf]
  | cons p rest ih =>
    obtain ⟨k1, v1⟩ := p
    have hnd2 : NodupKeys rest := by
      simpa [NodupKeys, keysOf] using (List.nodup_cons.mp hnd).2
    have hk1 : k1 ∉ keysOf rest := by
      simpa [keysOf] using (List.nodup_cons.mp hnd).1
    by_cases h : k = k1
    · subst h
      rw [show goInsert k v ((k, v1) :: rest) = (k, v) :: rest from by
        simp [goInsert]]
      exact List.nodup_cons.mpr ⟨hk1, hnd2⟩
    · have h2 : k1 ∉ keysOf (goInsert k v rest) := by
        intro hmem
        rcases (keysOf_goInsert rest k k1 v).mp hmem with h3 | h3
        · exact h h3.symm
        · exact hk1 h3
      rw [show goInsert k v ((k1, v1) :: rest) = (k1, v1) :: goInsert k v rest
        from by simp [goInsert, h]]
      exact List.nodup_cons.mpr ⟨h2, ih hnd2⟩

theorem goErase_sublist [DecidableEq K] (l : List (K × V)) (k : K) :
    (goErase k l).Sublist l := by
  induction l with
  | nil => simp [goErase]
  | cons p rest ih =>
    obtain ⟨k1, v1⟩ := p
    by_cases h : k = k1
    · simpa [goErase, h] using List.sublist_cons_self (k1, v1) rest
    · simpa [goErase, h] using List.Sublist.cons₂ (k1, v1) ih

theorem nodupKeys_goErase [DecidableEq K] (l : List (K × V)) (k : K)
    (hnd : NodupKeys l) : NodupKeys (goErase k l) :=
  List.Nodup.sublist (List.Sublist.map Prod.fst (goErase_sublist l k)) hnd

theorem length_goErase_of_mem [DecidableEq K] (l : List (K × V)) (k : K)
    (h : (goLookup k l).isSome = true) :
    (goErase k l).length + 1 = l.length := by
  induction l with
  | nil => simp [goLookup] at h
  | cons p rest ih =>
    obtain ⟨k1, v1⟩ := p
    by_cases h2 : k = k1
    · simp [goErase, h2]
    · simp only [goLookup, if_neg h2] at h
      simp [goErase, h2, ih h]

theorem goLookup_of_mem [DecidableEq K] (l : List (K × V)) (k : K) (v : V)
    (hnd : NodupKeys l) (hmem : (k, v) ∈ l) : goLookup k l = some v := by
  induction l with
  | nil => simp at hmem
  | cons p rest ih =>
    obtain ⟨k1, v1⟩ := p
    have hnd2 : NodupKeys rest := by
      simpa [NodupKeys, keysOf] using (List.nodup_cons.mp hnd).2
    have hk1 : k1 ∉ keysOf rest := by
      simpa [keysOf] using (List.nodup_cons.mp hnd).1
    rcases List.mem_cons.mp hmem with h | h
    · cases h
      simp [goLookup]
    · by_cases h2 : k = k1
      · exact absurd (h2 ▸ List.mem_map_of_mem Prod.fst h) hk1
      · simpa [goLookup, h2] using ih hnd2 h

theorem mem_of_goLookup [DecidableEq K] (l : List (K × V)) (k : K) (v : V)
    (h : goLookup k l = some v) : (k, v) ∈ l := by
  induction l with
  | nil => simp [goLookup] at h
  | cons p rest ih =>
    obtain ⟨k1, v1⟩ := p
    by_cases h2 : k = k1
    · simp only [goLookup, if_pos h2, Option.some.injEq] at h
      simp [h2, h]
    · simp only [goLookup, if_neg h2] at h
      exact List.mem_cons_of_mem _ (ih h)

/-! ## Lemmas about the Range loop -/

theorem goRange_eq_take [DecidableEq K] (f : K → V → Bool) (l : List (K × V)) :
    ∃ n, n ≤ l.length ∧ goRange f l = l.take n := by
  induction l with
  | nil => exact ⟨0, by simp [goRange]⟩
  | cons p rest ih =>
    obtain ⟨k, v⟩ := p
    by_cases h : f k v
    · obtain ⟨n, hn, he⟩ := ih
      exact ⟨n + 1, by simpa using hn, by simp [goRange, h, he]⟩
    · exact ⟨1, by simp, by simp [goRange, h]⟩

theorem goRange_of_all_true [DecidableEq K] (f : K → V → Bool)
    (l : List (K × V)) (h : ∀ p ∈ l, f p.1 p.2 = true) :
    goRange f l = l := by
  induction l with
  | nil => rfl
  | cons p rest ih =>
    obtain ⟨k, v⟩ := p
    have h1 : f k v = true := h (k, v) (List.mem_cons_self _ _)
    simp [goRange, h1, ih (fun q hq => h q (List.mem_cons_of_mem _ hq))]

theorem goRangeEff_fst_eq_take [DecidableEq K] {σ : Type}
    (f : K → V → σ → Bool × σ) (l : List (K × V)) (s : σ) :
    ∃ n, n ≤ l.length ∧ (goRangeEff f l s).1 = l.take n := by
  induction l generalizing s with
  | nil => exact ⟨0, by simp [goRangeEff]⟩
  | cons p rest ih =>
    obtain ⟨k, v⟩ := p
    by_cases h : (f k v s).1
    · obtain ⟨n, hn, he⟩ := ih (f k v s).2
      exact ⟨n + 1, by simpa using hn, by simp [goRangeEff, h, he]⟩
    · exact ⟨1, by simp, by simp [goRangeEff, h]⟩

theorem goRangeEff_of_all_true [DecidableEq K] {σ : Type}
    (f : K → V → σ → Bool × σ) (l : List (K × V)) (s : σ)
    (h : ∀ k v t, (f k v t).1 = true) :
    (goRangeEff f l s).1 = l := by
  induction l generalizing s with
  | nil => rfl
  | cons p rest ih =>
    obtain ⟨k, v⟩ := p
    simp [goRangeEff, h k v s, ih (f k v s).2]

theorem agree_refSet [DecidableEq K] {l : List (K × V)} {r : RefMap K V}
    (h : Agree l r) (k : K) (v : V) : Agree (goInsert k v l) (refSet r k v) := by
  refine ⟨nodupKeys_goInsert l k v h.1, fun k2 => ?_⟩
  rw [goLookup_goInsert, refSet]
  by_cases h2 : k2 = k <;> simp [h2, h.2 k2]

/-- One call preserves the simulation: both engines step to the same
snapshot, all three models return the same output, and the new snapshot
still agrees with the stepped plain mapping. -/
theorem step_sim [DecidableEq K] [DecidableEq V] (l : List (K × V))
    (r : RefMap K V) (h : Agree l r) (op : Op K V) :
    (stepCAS (⟨l⟩ : CASMap K V) op).1.data = (stepRWM (⟨l⟩ : RWMutexMap K V) op).1.data ∧
    (stepCAS (⟨l⟩ : CASMap K V) op).2 = (stepRWM (⟨l⟩ : RWMutexMap K V) op).2 ∧
    (stepCAS (⟨l⟩ : CASMap K V) op).2 = (stepRef r op).2 ∧
    Agree (stepCAS (⟨l⟩ : CASMap K V) op).1.data (stepRef r op).1 := by
  cases op with
  | set k v =>
    exact ⟨rfl, rfl, rfl, by
      simpa [stepCAS, stepRef, CASMap.Set, CASMap.load] using agree_refSet h k v⟩
  | del k =>
    rcases hl : goLookup k l with _ | v0
    · refine ⟨?_, rfl, rfl, ?_⟩
      · simp [stepCAS, stepRWM, CASMap.Delete, RWMutexMap.Delete,
          CASMap.load, RWMutexMap.load, hl]
      · simp only [stepCAS, stepRef, CASMap.Delete, CASMap.load, hl]
        refine ⟨h.1, fun k2 => ?_⟩
        by_cases h2 : k2 = k
        · subst h2; simpa [refDelete] using hl
        · simp [refDelete, h2, h.2 k2]
    · refine ⟨?_, rfl, rfl, ?_⟩
      · simp [stepCAS, stepRWM, CASMap.Delete, RWMutexMap.Delete,
          CASMap.load, RWMutexMap.load, hl]
      · simp only [stepCAS, stepRef, CASMap.Delete, CASMap.load, hl]
        refine ⟨nodupKeys_goErase l k h.1, fun k2 => ?_⟩
        rw [goLookup_goErase l k k2 h.1, refDelete]
        by_cases h2 : k2 = k <;> simp [h2, h.2 k2]
  | clear =>
    refine ⟨rfl, rfl, rfl, ?_⟩
    exact ⟨by simp [stepCAS, CASMap.Clear, NodupKeys, keysOf],
      fun k2 => by simp [stepCAS, CASMap.Clear, goLookup, refEmpty, stepRef]⟩
  | getOrSet k v =>
    have hr : r k = goLookup k l := (h.2 k).symm
    rcases hl : goLookup k l with _ | v0
    · refine ⟨?_, ?_, ?_, ?_⟩
      · simp [stepCAS, stepRWM, CASMap.GetOrSet, RWMutexMap.GetOrSet,
          CASMap.load, RWMutexMap.load, hl]
      · simp [stepCAS, stepRWM, CASMap.GetOrSet, RWMutexMap.GetOrSet,
          CASMap.load, RWMutexMap.load, hl]
      · simp [stepCAS, stepRef, CASMap.GetOrSet, CASMap.load, hl, hr]
      · simp only [stepCAS, stepRef, CASMap.GetOrSet, CASMap.load, hl,
          hr.trans hl]
        exact agree_refSet h k v
    · refine ⟨?_, ?_, ?_, ?_⟩
      · simp [stepCAS, stepRWM, CASMap.GetOrSet, RWMutexMap.GetOrSet,
          CASMap.load, RWMutexMap.load, hl]
      · simp [stepCAS, stepRWM, CASMap.GetOrSet, RWMutexMap.GetOrSet,
          CASMap.load, RWMutexMap.load, hl]
      · simp [stepCAS, stepRef, CASMap.GetOrSet, CASMap.load, hl, hr]
      · simp only [stepCAS, stepRef, CASMap.GetOrSet, CASMap.load, hl,
          hr.trans hl]
        exact h
  | setIfAbsent k v =>
    have hr : r k = goLookup k l := (h.2 k).symm
    rcases hl : goLookup k l with _ | v0
    · refine ⟨?_, ?_, ?_, ?_⟩
      · simp [stepCAS, stepRWM, CASMap.SetIfAbsent, RWMutexMap.SetIfAbsent,
          CASMap.load, RWMutexMap.load, hl]
      · simp [stepCAS, stepRWM, CASMap.SetIfAbsent, RWMutexMap.SetIfAbsent,
          CASMap.load, RWMutexMap.load, hl]
      · simp [stepCAS, stepRef, CASMap.SetIfAbsent, CASMap.load, hl, hr]
      · simp only [stepCAS, stepRef, CASMap.SetIfAbsent, CASMap.load, hl,
          hr.trans hl]
        exact agree_refSet h k v
    · refine ⟨?_, ?_, ?_, ?_⟩
      · simp [stepCAS, stepRWM, CASMap.SetIfAbsent, RWMutexMap.SetIfAbsent,
          CASMap.load, RWMutexMap.load, hl]
      · simp [stepCAS, stepRWM, CASMap.SetIfAbsent, RWMutexMap.SetIfAbsent,
          CASMap.load, RWMutexMap.load, hl]
      · simp [stepCAS, stepRef, CASMap.SetIfAbsent, CASMap.load, hl, hr]
      · simp only [stepCAS, stepRef, CASMap.SetIfAbsent, CASMap.load, hl,
          hr.trans hl]
        exact h
  | cas k a b =>
    have hr : r k = goLookup k l := (h.2 k).symm
    rcases hl : goLookup k l with _ | v0
    · refine ⟨?_, ?_, ?_, ?_⟩
      · simp [stepCAS, stepRWM, CASMap.CompareAndSwap, RWMutexMap.CompareAndSwap,
          CASMap.load, RWMutexMap.load, hl]
      · simp [stepCAS, stepRWM, CASMap.CompareAndSwap, RWMutexMap.CompareAndSwap,
          CASMap.load, RWMutexMap.load, hl]
      · simp [stepCAS, stepRef, CASMap.CompareAndSwap, CASMap.load, hl, hr]
      · simp only [stepCAS, stepRef, CASMap.CompareAndSwap, CASMap.load, hl,
          hr.trans hl]
        exact h
    · by_cases hcmp : v0 = a
      · have hc : compare v0 a = true := by simp [compare, hcmp]
        refine ⟨?_, ?_, ?_, ?_⟩
        · simp [stepCAS, stepRWM, CASMap.CompareAndSwap,
            RWMutexMap.CompareAndSwap, CASMap.load, RWMutexMap.load, hl, hc]
        · simp [stepCAS, stepRWM, CASMap.CompareAndSwap,
            RWMutexMap.CompareAndSwap, CASMap.load, RWMutexMap.load, hl, hc]
        · simp [stepCAS, stepRef, CASMap.CompareAndSwap, CASMap.load, hl,
            hr.trans hl, compare, hcmp]
        · simp only [stepCAS, stepRef, CASMap.CompareAndSwap, CASMap.load, hl,
            hr.trans hl, hc, if_true, if_pos hcmp]
          exact agree_refSet h k b
      · have hc : compare v0 a = false := by simp [compare, hcmp]
        refine ⟨?_, ?_, ?_, ?_⟩
        · simp [stepCAS, stepRWM, CASMap.CompareAndSwap,
            RWMutexMap.CompareAndSwap, CASMap.load, RWMutexMap.load, hl, hc]
        · simp [stepCAS, stepRWM, CASMap.CompareAndSwap,
            RWMutexMap.CompareAndSwap, CASMap.load, RWMutexMap.load, hl, hc]
        · simp [stepCAS, stepRef, CASMap.CompareAndSwap, CASMap.load, hl,
            hr.trans hl, hc, hcmp]
        · simp only [stepCAS, stepRef, CASMap.CompareAndSwap, CASMap.load, hl,
            hr.trans hl, hc, if_false, if_neg hcmp]
          exact h

/-- The simulation extended to whole call sequences. -/
theorem run_sim [DecidableEq K] [DecidableEq V] (ops : List (Op K V)) :
    ∀ (l : List (K × V)) (r : RefMap K V), Agree l r →
    (runCASFrom (⟨l⟩ : CASMap K V) ops).1.data
      = (runRWMFrom (⟨l⟩ : RWMutexMap K V) ops).1.data ∧
    (runCASFrom (⟨l⟩ : CASMap K V) ops).2
      = (runRWMFrom (⟨l⟩ : RWMutexMap K V) ops).2 ∧
    (runCASFrom (⟨l⟩ : CASMap K V) ops).2 = (runRefFrom r ops).2 ∧
    Agree (runCASFrom (⟨l⟩ : CASMap K V) ops).1.data (runRefFrom r ops).1 := by
  induction ops with
  | nil => exact fun l r h => ⟨rfl, rfl, rfl, h⟩
  | cons op ops ih =>
    intro l r h
    obtain ⟨hdata, hout, hout2, hagree⟩ := step_sim l r h op
    obtain ⟨ih1, ih2, ih3, ih4⟩ :=
      ih (stepCAS (⟨l⟩ : CASMap K V) op).1.data (stepRef r op).1 hagree
    have ecas : (stepCAS (⟨l⟩ : CASMap K V) op).1
        = (⟨(stepCAS (⟨l⟩ : CASMap K V) op).1.data⟩ : CASMap K V) := rfl
    have erwm : (stepRWM (⟨l⟩ : RWMutexMap K V) op).1
        = (⟨(stepCAS (⟨l⟩ : CASMap K V) op).1.data⟩ : RWMutexMap K V) := by
      rw [hdata]
    refine ⟨?_, ?_, ?_, ?_⟩
    · simp only [runCASFrom, runRWMFrom]
      rw [ecas, erwm]
      exact ih1
    · simp only [runCASFrom, runRWMFrom]
      rw [ecas, erwm, hout]
      exact congrArg _ ih2
    · simp only [runCASFrom, runRefFrom]
      rw [ecas, hout2]
      exact congrArg _ ih3
    · simp only [runCASFrom, runRefFrom]
      rw [ecas]
      exact ih4

/-- The exact stopping point of the Range loop: the visited entries are
the longest all-`true` prefix plus the first `false` entry (clipped at
the snapshot length). -/
theorem goRange_eq_take_succ [DecidableEq K] (f : K → V → Bool)
    (l : List (K × V)) :
    goRange f l = l.take ((l.takeWhile fun p => f p.1 p.2).length + 1) := by
  induction l with
  | nil => rfl
  | cons p rest ih =>
    obtain ⟨k, v⟩ := p
    by_cases h : f k v <;> simp [goRange, List.takeWhile_cons, h, ih]

/-! ## Claim theorems -/

/-- C1: for any sequence of Set/Delete/Clear/GetOrSet/SetIfAbsent/
CompareAndSwap calls executed by a single caller with no concurrency,
CASMap and RWMutexMap return identical results for every operation and
end in the same snapshot, and both behave identically to a plain
non-concurrent mapping: Get, Has, Len, Keys, Values and Range report
exactly the entries of the reference map produced by that sequence. -/
theorem C1_sequential_equivalence [DecidableEq K] [DecidableEq V]
    [Inhabited V] (ops : List (Op K V)) :
    ((runCAS ops).1.data = (runRWM ops).1.data) ∧
    ((runCAS ops).2 = (runRWM ops).2) ∧
    ((runCAS ops).2 = (runRef ops).2) ∧
    ((runCAS ops).1.Len = (runRWM ops).1.Len) ∧
    ((runCAS ops).1.Keys = (runRWM ops).1.Keys) ∧
    ((runCAS ops).1.Values = (runRWM ops).1.Values) ∧
    (∀ f, (runCAS ops).1.Range f = (runRWM ops).1.Range f) ∧
    (∀ k, (runCAS ops).1.Get k = (runRWM ops).1.Get k) ∧
    (∀ k, (runCAS ops).1.Has k = (runRWM ops).1.Has k) ∧
    (∀ k, (runCAS ops).1.Get k
      = (((runRef ops).1 k).getD default, ((runRef ops).1 k).isSome)) ∧
    (∀ k, (runCAS ops).1.Has k = ((runRef ops).1 k).isSome) ∧
    ((runCAS ops).1.Keys.Nodup) ∧
    (∀ k, k ∈ (runCAS ops).1.Keys ↔ ((runRef ops).1 k).isSome = true) ∧
    ((runCAS ops).1.Len = (runCAS ops).1.Keys.length) ∧
    ((runCAS ops).1.Values
      = (runCAS ops).1.Keys.map fun k => ((runRef ops).1 k).getD default) ∧
    ((runCAS ops).1.Range (fun _ _ => true) = (runCAS ops).1.data) ∧
    (∀ k v, (k, v) ∈ (runCAS ops).1.data ↔ (runRef ops).1 k = some v) := by
  have hinit : Agree ([] : List (K × V)) (refEmpty : RefMap K V) :=
    ⟨List.nodup_nil, fun _ => rfl⟩
  obtain ⟨h1, h2, h3, hA⟩ := run_sim ops [] refEmpty hinit
  have hdata : (runCAS (K := K) (V := V) ops).1.data = (runRWM ops).1.data := h1
  have hAgree : Agree (runCAS (K := K) (V := V) ops).1.data (runRef ops).1 := hA
  refine ⟨hdata, h2, h3, ?_, ?_, ?_, ?_, ?_, ?_, ?_, ?_, ?_, ?_, ?_, ?_, ?_, ?_⟩
  · show (runCAS ops).1.data.length = (runRWM ops).1.data.length
    rw [hdata]
  · show (runCAS ops).1.data.map Prod.fst = (runRWM ops).1.data.map Prod.fst
    rw [hdata]
  · show (runCAS ops).1.data.map Prod.snd = (runRWM ops).1.data.map Prod.snd
    rw [hdata]
  · intro f
    show goRange f (runCAS ops).1.data = goRange f (runRWM ops).1.data
    rw [hdata]
  · intro k
    show ((goLookup k (runCAS ops).1.data).getD default,
        (goLookup k (runCAS ops).1.data).isSome)
      = ((goLookup k (runRWM ops).1.data).getD default,
        (goLookup k (runRWM ops).1.data).isSome)
    rw [hdata]
  · intro k
    show (goLookup k (runCAS ops).1.data).isSome
      = (goLookup k (runRWM ops).1.data).isSome
    rw [hdata]
  · intro k
    show ((goLookup k (runCAS ops).1.data).getD default,
        (goLookup k (runCAS ops).1.data).isSome)
      = (((runRef ops).1 k).getD default, ((runRef ops).1 k).isSome)
    rw [hAgree.2 k]
  · intro k
    show (goLookup k (runCAS ops).1.data).isSome = ((runRef ops).1 k).isSome
    rw [hAgree.2 k]
  · exact hAgree.1
  · intro k
    rw [← hAgree.2 k]
    exact (goLookup_isSome_iff_mem _ k).symm
  · exact (List.length_map _ Prod.fst).symm
  · show (runCAS ops).1.data.map Prod.snd
      = ((runCAS ops).1.data.map Prod.fst).map fun k => ((runRef ops).1 k).getD default
    rw [List.map_map]
    refine List.map_congr_left fun p hp => ?_
    obtain ⟨k, v⟩ := p
    have hlk : goLookup k (runCAS (K := K) (V := V) ops).1.data = some v :=
      goLookup_of_mem _ k v hAgree.1 hp
    have : (runRef (K := K) (V := V) ops).1 k = some v := (hAgree.2 k).symm.trans hlk
    simp [this]
  · exact goRange_of_all_true _ _ fun p _ => rfl
  · intro k v
    constructor
    · intro hm
      exact (hAgree.2 k).symm.trans (goLookup_of_mem _ k v hAgree.1 hm)
    · intro hr2
      exact mem_of_goLookup _ k v ((hAgree.2 k).trans hr2)

/-- C2: for both engines, CompareAndSwap(k, old, new) returns false when
k is absent; returns false when k is present with a stored value not
value-equal to old (even when new equals old, since new is arbitrary
here); and returns true when the stored value equals old, after which
Get(k) returns (new, true).  Scenario B: after Set("a",1),
CompareAndSwap("a",1,2) is true, a following CompareAndSwap("a",1,3) is
false, and Get("a") is (2,true). -/
theorem C2_compareAndSwap_correctness [DecidableEq K] [DecidableEq V]
    [Inhabited V] (mc : CASMap K V) (mr : RWMutexMap K V) (k : K) (a b : V) :
    (goLookup k mc.data = none → mc.CompareAndSwap k a b = (false, mc)) ∧
    (∀ cur, goLookup k mc.data = some cur → cur ≠ a →
      mc.CompareAndSwap k a b = (false, mc)) ∧
    (goLookup k mc.data = some a → (mc.CompareAndSwap k a b).1 = true ∧
      (mc.CompareAndSwap k a b).2.Get k = (b, true)) ∧
    (goLookup k mr.data = none → mr.CompareAndSwap k a b = (false, mr)) ∧
    (∀ cur, goLookup k mr.data = some cur → cur ≠ a →
      mr.CompareAndSwap k a b = (false, mr)) ∧
    (goLookup k mr.data = some a → (mr.CompareAndSwap k a b).1 = true ∧
      (mr.CompareAndSwap k a b).2.Get k = (b, true)) ∧
    (let m0 : CASMap String Nat := CASMap.New.Set "a" 1
     let r1 := m0.CompareAndSwap "a" 1 2
     let r2 := r1.2.CompareAndSwap "a" 1 3
     r1.1 = true ∧ r2.1 = false ∧ r2.2.Get "a" = (2, true)) ∧
    (let m0 : RWMutexMap String Nat := RWMutexMap.New.Set "a" 1
     let r1 := m0.CompareAndSwap "a" 1 2
     let r2 := r1.2.CompareAndSwap "a" 1 3
     r1.1 = true ∧ r2.1 = false ∧ r2.2.Get "a" = (2, true)) := by
  refine ⟨?_, ?_, ?_, ?_, ?_, ?_, ⟨by decide, by decide, by decide⟩,
    ⟨by decide, by decide, by decide⟩⟩
  · intro h
    simp [CASMap.CompareAndSwap, CASMap.load, h]
  · intro cur h hne
    simp [CASMap.CompareAndSwap, CASMap.load, h, compare, hne]
  · intro h
    refine ⟨?_, ?_⟩
    · simp [CASMap.CompareAndSwap, CASMap.load, h, compare]
    · simp [CASMap.CompareAndSwap, CASMap.load, h, compare, CASMap.Get,
        goLookup_goInsert]
  · intro h
    simp [RWMutexMap.CompareAndSwap, RWMutexMap.load, h]
  · intro cur h hne
    simp [RWMutexMap.CompareAndSwap, RWMutexMap.load, h, compare, hne]
  · intro h
    refine ⟨?_, ?_⟩
    · simp [RWMutexMap.CompareAndSwap, RWMutexMap.load, h, compare]
    · simp [RWMutexMap.CompareAndSwap, RWMutexMap.load, h, compare,
        RWMutexMap.Get, goLookup_goInsert]

/-- Witness for C2 at concrete inputs: an absent key fails, a mismatched
value fails, a matching value succeeds and publishes the new value. -/
theorem C2_compareAndSwap_correctness_witness :
    ((⟨[]⟩ : CASMap String Nat).CompareAndSwap "a" 1 2 = (false, ⟨[]⟩)) ∧
    ((⟨[("a", 5)]⟩ : CASMap String Nat).CompareAndSwap "a" 1 2
      = (false, ⟨[("a", 5)]⟩)) ∧
    (((⟨[("a", 1)]⟩ : CASMap String Nat).CompareAndSwap "a" 1 2).1 = true) ∧
    (((⟨[("a", 1)]⟩ : CASMap String Nat).CompareAndSwap "a" 1 2).2.Get "a"
      = (2, true)) ∧
    ((⟨[]⟩ : RWMutexMap String Nat).CompareAndSwap "a" 1 2 = (false, ⟨[]⟩)) := by
  have h1 := C2_compareAndSwap_correctness (⟨[]⟩ : CASMap String Nat)
    (⟨[]⟩ : RWMutexMap String Nat) "a" 1 2
  have h2 := C2_compareAndSwap_correctness (⟨[("a", 5)]⟩ : CASMap String Nat)
    (⟨[]⟩ : RWMutexMap String Nat) "a" 1 2
  have h3 := C2_compareAndSwap_correctness (⟨[("a", 1)]⟩ : CASMap String Nat)
    (⟨[]⟩ : RWMutexMap String Nat) "a" 1 2
  exact ⟨h1.1 (by decide), h2.2.1 5 (by decide) (by decide),
    (h3.2.2.1 (by decide)).1, (h3.2.2.1 (by decide)).2,
    h1.2.2.2.1 (by decide)⟩

/-- C3: for both engines, Range(f) iterates exactly over the snapshot
loaded at call entry: the visited entries are the prefix of that
snapshot up to and including the first entry on which f returns false
(each entry visited at most once), and when the callback additionally
mutates state - in particular the container itself via Set, Delete,
Clear, ... - the visited entries are still a prefix of the entry
snapshot (writes never change what the ongoing iteration visits and no
partially updated snapshot is exposed), with an all-true callback
visiting the entry snapshot in full; the model functions are total, so
a mutating callback never self-blocks. -/
theorem C3_range_snapshot_isolation [DecidableEq K]
    (mc : CASMap K V) (mr : RWMutexMap K V) (f : K → V → Bool) :
    (mc.Range f
      = mc.data.take ((mc.data.takeWhile fun p => f p.1 p.2).length + 1)) ∧
    (mr.Range f
      = mr.data.take ((mr.data.takeWhile fun p => f p.1 p.2).length + 1)) ∧
    (NodupKeys mc.data → NodupKeys (mc.Range f)) ∧
    (∀ g : K → V → CASMap K V → Bool × CASMap K V, ∀ s,
      ∃ n, n ≤ mc.data.length ∧ (mc.RangeEff g s).1 = mc.data.take n) ∧
    (∀ g : K → V → CASMap K V → Bool × CASMap K V, ∀ s,
      (∀ k v t, (g k v t).1 = true) → (mc.RangeEff g s).1 = mc.data) ∧
    (∀ g : K → V → RWMutexMap K V → Bool × RWMutexMap K V, ∀ s,
      ∃ n, n ≤ mr.data.length ∧ (mr.RangeEff g s).1 = mr.data.take n) ∧
    (∀ g : K → V → RWMutexMap K V → Bool × RWMutexMap K V, ∀ s,
      (∀ k v t, (g k v t).1 = true) → (mr.RangeEff g s).1 = mr.data) := by
  refine ⟨goRange_eq_take_succ f mc.data, goRange_eq_take_succ f mr.data,
    ?_, ?_, ?_, ?_, ?_⟩
  · intro hnd
    obtain ⟨n, hn, he⟩ := goRange_eq_take f mc.data
    show NodupKeys (goRange f mc.data)
    rw [he]
    exact List.Nodup.sublist (List.Sublist.map Prod.fst (List.take_sublist n mc.data)) hnd
  · exact fun g s => goRangeEff_fst_eq_take g mc.data s
  · exact fun g s h => goRangeEff_of_all_true g mc.data s h
  · exact fun g s => goRangeEff_fst_eq_take g mr.data s
  · exact fun g s h => goRangeEff_of_all_true g mr.data s h

/-- Witness for C3 at a concrete two-entry snapshot, with a callback
that writes back into the container being iterated. -/
theorem C3_range_snapshot_isolation_witness :
    NodupKeys ((⟨[("a", 1), ("b", 2)]⟩ : CASMap String Nat).Range
      fun _ _ => true) ∧
    (((⟨[("a", 1), ("b", 2)]⟩ : CASMap String Nat).RangeEff
      (fun k v (s : CASMap String Nat) => (true, s.Set k (v + 1)))
      (⟨[("a", 1), ("b", 2)]⟩ : CASMap String Nat)).1
      = [("a", 1), ("b", 2)]) := by
  have h := C3_range_snapshot_isolation
    (⟨[("a", 1), ("b", 2)]⟩ : CASMap String Nat)
    (⟨[]⟩ : RWMutexMap String Nat) (fun _ _ => true)
  exact ⟨h.2.2.1 (by decide),
    h.2.2.2.2.1 (fun k v s => (true, s.Set k (v + 1))) _ (fun _ _ _ => rfl)⟩

/-- C4: for both engines, GetOrSet(k,v) on a state where k is present
returns (stored value, true) and leaves the container unchanged; where
k is absent it installs k bound to v and returns (v, false).
Scenario A: on an empty map GetOrSet("a",1) returns (1,false), then
Get("a") returns (1,true) and Len() returns 1. -/
theorem C4_getOrSet [DecidableEq K] [Inhabited V]
    (mc : CASMap K V) (mr : RWMutexMap K V) (k : K) (v : V) :
    (∀ v0, goLookup k mc.data = some v0 → mc.GetOrSet k v = ((v0, true), mc)) ∧
    (goLookup k mc.data = none → (mc.GetOrSet k v).1 = (v, false) ∧
      (mc.GetOrSet k v).2.data = goInsert k v mc.data ∧
      (mc.GetOrSet k v).2.Get k = (v, true)) ∧
    (∀ v0, goLookup k mr.data = some v0 → mr.GetOrSet k v = ((v0, true), mr)) ∧
    (goLookup k mr.data = none → (mr.GetOrSet k v).1 = (v, false) ∧
      (mr.GetOrSet k v).2.data = goInsert k v mr.data ∧
      (mr.GetOrSet k v).2.Get k = (v, true)) ∧
    (let r := (CASMap.New : CASMap String Nat).GetOrSet "a" 1
     r.1 = (1, false) ∧ r.2.Get "a" = (1, true) ∧ r.2.Len = 1) ∧
    (let r := (RWMutexMap.New : RWMutexMap String Nat).GetOrSet "a" 1
     r.1 = (1, false) ∧ r.2.Get "a" = (1, true) ∧ r.2.Len = 1) := by
  refine ⟨?_, ?_, ?_, ?_, ⟨by decide, by decide, by decide⟩,
    ⟨by decide, by decide, by decide⟩⟩
  · intro v0 h
    simp [CASMap.GetOrSet, CASMap.load, h]
  · intro h
    refine ⟨?_, ?_, ?_⟩
    · simp [CASMap.GetOrSet, CASMap.load, h]
    · simp [CASMap.GetOrSet, CASMap.load, h]
    · simp [CASMap.GetOrSet, CASMap.load, h, CASMap.Get, goLookup_goInsert]
  · intro v0 h
    simp [RWMutexMap.GetOrSet, RWMutexMap.load, h]
  · intro h
    refine ⟨?_, ?_, ?_⟩
    · simp [RWMutexMap.GetOrSet, RWMutexMap.load, h]
    · simp [RWMutexMap.GetOrSet, RWMutexMap.load, h]
    · simp [RWMutexMap.GetOrSet, RWMutexMap.load, h, RWMutexMap.Get,
        goLookup_goInsert]

/-- Witness for C4 at concrete inputs: a hit returns the stored value
and leaves the map alone; a miss installs the new binding. -/
theorem C4_getOrSet_witness :
    ((⟨[("a", 7)]⟩ : CASMap String Nat).GetOrSet "a" 1
      = ((7, true), ⟨[("a", 7)]⟩)) ∧
    (((⟨[]⟩ : RWMutexMap String Nat).GetOrSet "a" 1).1 = (1, false)) := by
  have h := C4_getOrSet (⟨[("a", 7)]⟩ : CASMap String Nat)
    (⟨[]⟩ : RWMutexMap String Nat) "a" 1
  exact ⟨h.1 7 (by decide), (h.2.2.2.1 (by decide)).1⟩

/-- C5: for both engines, Set(k,v) publishes exactly the previous
snapshot with k bound to v (upsert): afterwards Get(k) returns (v,true)
and for every other key Get returns exactly what it returned before. -/
theorem C5_set_upsert [DecidableEq K] [Inhabited V]
    (mc : CASMap K V) (mr : RWMutexMap K V) (k k2 : K) (v : V) :
    ((mc.Set k v).data = goInsert k v mc.data) ∧
    ((mc.Set k v).Get k = (v, true)) ∧
    (∀ k3, goLookup k3 (mc.Set k v).data
      = if k3 = k then some v else goLookup k3 mc.data) ∧
    (k2 ≠ k → (mc.Set k v).Get k2 = mc.Get k2) ∧
    ((mr.Set k v).data = goInsert k v mr.data) ∧
    ((mr.Set k v).Get k = (v, true)) ∧
    (∀ k3, goLookup k3 (mr.Set k v).data
      = if k3 = k then some v else goLookup k3 mr.data) ∧
    (k2 ≠ k → (mr.Set k v).Get k2 = mr.Get k2) := by
  refine ⟨rfl, ?_, ?_, ?_, rfl, ?_, ?_, ?_⟩
  · simp [CASMap.Set, CASMap.Get, CASMap.load, goLookup_goInsert]
  · intro k3
    exact goLookup_goInsert mc.data k k3 v
  · intro hne
    simp [CASMap.Set, CASMap.Get, CASMap.load, goLookup_goInsert, hne]
  · simp [RWMutexMap.Set, RWMutexMap.Get, RWMutexMap.load, goLookup_goInsert]
  · intro k3
    exact goLookup_goInsert mr.data k k3 v
  · intro hne
    simp [RWMutexMap.Set, RWMutexMap.Get, RWMutexMap.load, goLookup_goInsert, hne]

/-- Witness for C5 at concrete inputs: setting "a" leaves the binding of
"b" untouched, in both engines. -/
theorem C5_set_upsert_witness :
    (((⟨[("b", 9)]⟩ : CASMap String Nat).Set "a" 1).Get "b" = (9, true)) ∧
    (((⟨[("b", 9)]⟩ : RWMutexMap String Nat).Set "a" 1).Get "b" = (9, true)) := by
  have h := C5_set_upsert (⟨[("b", 9)]⟩ : CASMap String Nat)
    (⟨[("b", 9)]⟩ : RWMutexMap String Nat) "a" "b" 1
  exact ⟨(h.2.2.2.1 (by decide)).trans (by decide),
    ((h.2.2.2.2.2.2.2) (by decide)).trans (by decide)⟩

/-- C6: for both engines, SetIfAbsent(k,v) returns true and installs
k bound to v exactly when k is absent, returns false leaving the map
unchanged when present, its boolean result is the negation of the
existed flag of GetOrSet(k,v) on the same state, and both calls leave
the container in the same final state. -/
theorem C6_setIfAbsent_getOrSet [DecidableEq K]
    (mc : CASMap K V) (mr : RWMutexMap K V) (k : K) (v : V) :
    ((mc.SetIfAbsent k v).1 = !(mc.GetOrSet k v).1.2) ∧
    ((mc.SetIfAbsent k v).2 = (mc.GetOrSet k v).2) ∧
    (goLookup k mc.data = none →
      mc.SetIfAbsent k v = (true, ⟨goInsert k v mc.data⟩)) ∧
    (∀ v0, goLookup k mc.data = some v0 → mc.SetIfAbsent k v = (false, mc)) ∧
    ((mr.SetIfAbsent k v).1 = !(mr.GetOrSet k v).1.2) ∧
    ((mr.SetIfAbsent k v).2 = (mr.GetOrSet k v).2) ∧
    (goLookup k mr.data = none →
      mr.SetIfAbsent k v = (true, ⟨goInsert k v mr.data⟩)) ∧
    (∀ v0, goLookup k mr.data = some v0 → mr.SetIfAbsent k v = (false, mr)) := by
  refine ⟨?_, ?_, ?_, ?_, ?_, ?_, ?_, ?_⟩
  · rcases h : goLookup k mc.data with _ | v0 <;>
      simp [CASMap.SetIfAbsent, CASMap.GetOrSet, CASMap.load, h]
  · rcases h : goLookup k mc.data with _ | v0 <;>
      simp [CASMap.SetIfAbsent, CASMap.GetOrSet, CASMap.load, h]
  · intro h
    simp [CASMap.SetIfAbsent, CASMap.load, h]
  · intro v0 h
    simp [CASMap.SetIfAbsent, CASMap.load, h]
  · rcases h : goLookup k mr.data with _ | v0 <;>
      simp [RWMutexMap.SetIfAbsent, RWMutexMap.GetOrSet, RWMutexMap.load, h]
  · rcases h : goLookup k mr.data with _ | v0 <;>
      simp [RWMutexMap.SetIfAbsent, RWMutexMap.GetOrSet, RWMutexMap.load, h]
  · intro h
    simp [RWMutexMap.SetIfAbsent, RWMutexMap.load, h]
  · intro v0 h
    simp [RWMutexMap.SetIfAbsent, RWMutexMap.load, h]

/-- Witness for C6 at concrete inputs: an absent key is installed with
result true, a present key is left with result false. -/
theorem C6_setIfAbsent_getOrSet_witness :
    ((⟨[]⟩ : CASMap String Nat).SetIfAbsent "a" 1
      = (true, ⟨[("a", 1)]⟩)) ∧
    ((⟨[("a", 7)]⟩ : RWMutexMap String Nat).SetIfAbsent "a" 1
      = (false, ⟨[("a", 7)]⟩)) := by
  have h1 := C6_setIfAbsent_getOrSet (⟨[]⟩ : CASMap String Nat)
    (⟨[("a", 7)]⟩ : RWMutexMap String Nat) "a" 1
  exact ⟨h1.2.2.1 (by decide), h1.2.2.2.2.2.2.2 7 (by decide)⟩

/-- C7: for both engines, Delete(k) on a state where k is absent
returns with the container state identical (the early-return branch is
taken before any copy is built, so no snapshot copy and, in the CAS
engine, no CAS attempt happens): Len and every Get are unchanged. -/
theorem C7_delete_absent_noop [DecidableEq K] [Inhabited V]
    (mc : CASMap K V) (mr : RWMutexMap K V) (k : K) :
    (goLookup k mc.data = none → mc.Delete k = mc ∧
      (mc.Delete k).Len = mc.Len ∧ ∀ k2, (mc.Delete k).Get k2 = mc.Get k2) ∧
    (goLookup k mr.data = none → mr.Delete k = mr ∧
      (mr.Delete k).Len = mr.Len ∧ ∀ k2, (mr.Delete k).Get k2 = mr.Get k2) := by
  constructor
  · intro h
    have he : mc.Delete k = mc := by
      simp [CASMap.Delete, CASMap.load, h]
    exact ⟨he, by rw [he], fun k2 => by rw [he]⟩
  · intro h
    have he : mr.Delete k = mr := by
      simp [RWMutexMap.Delete, RWMutexMap.load, h]
    exact ⟨he, by rw [he], fun k2 => by rw [he]⟩

/-- Witness for C7 at a concrete state: deleting the absent key "a"
leaves the one-entry map untouched in both engines. -/
theorem C7_delete_absent_noop_witness :
    ((⟨[("b", 1)]⟩ : CASMap String Nat).Delete "a" = ⟨[("b", 1)]⟩) ∧
    ((⟨[("b", 1)]⟩ : RWMutexMap String Nat).Delete "a" = ⟨[("b", 1)]⟩) := by
  have h := C7_delete_absent_noop (⟨[("b", 1)]⟩ : CASMap String Nat)
    (⟨[("b", 1)]⟩ : RWMutexMap String Nat) "a"
  exact ⟨(h.1 (by decide)).1, (h.2 (by decide)).1⟩

/-- C8: for both engines, whenever CompareAndSwap(k, old, new) returns
false (absent key or stored value not value-equal to old), the
container state is entirely unchanged: the result state is the very
state the call started from. -/
theorem C8_cas_failure_frame [DecidableEq K] [DecidableEq V]
    (mc : CASMap K V) (mr : RWMutexMap K V) (k : K) (a b : V) :
    ((mc.CompareAndSwap k a b).1 = false → (mc.CompareAndSwap k a b).2 = mc) ∧
    ((mr.CompareAndSwap k a b).1 = false → (mr.CompareAndSwap k a b).2 = mr) := by
  constructor
  · rcases h : goLookup k mc.data with _ | cur
    · intro _
      simp [CASMap.CompareAndSwap, CASMap.load, h]
    · by_cases hc : compare cur a = true <;>
        simp [CASMap.CompareAndSwap, CASMap.load, h, hc]
  · rcases h : goLookup k mr.data with _ | cur
    · intro _
      simp [RWMutexMap.CompareAndSwap, RWMutexMap.load, h]
    · by_cases hc : compare cur a = true <;>
        simp [RWMutexMap.CompareAndSwap, RWMutexMap.load, h, hc]

/-- Witness for C8 at a concrete state: a CAS that fails on a value
mismatch returns the untouched state, in both engines. -/
theorem C8_cas_failure_frame_witness :
    (((⟨[("a", 5)]⟩ : CASMap String Nat).CompareAndSwap "a" 1 2).2
      = ⟨[("a", 5)]⟩) ∧
    (((⟨[("a", 5)]⟩ : RWMutexMap String Nat).CompareAndSwap "a" 1 2).2
      = ⟨[("a", 5)]⟩) := by
  have h := C8_cas_failure_frame (⟨[("a", 5)]⟩ : CASMap String Nat)
    (⟨[("a", 5)]⟩ : RWMutexMap String Nat) "a" 1 2
  exact ⟨h.1 (by decide), h.2 (by decide)⟩

/-- Under the comparability precondition, the interface-level equality
check reduces to the total value-equality predicate. -/
theorem goEqAny_eq_ok_compare {α : Type} [DecidableEq α] (x y : α) :
    goEqAny (GoValue.cmp x) (GoValue.cmp y)
      = Except.ok (compare (GoValue.cmp x) (GoValue.cmp y)) := by
  by_cases hxy : x = y <;> simp [goEqAny, compare, hxy]

/-- C9: under the precondition that the values involved are
runtime-comparable (their dynamic type has well-defined equality
semantics), the helper compare(a,b) - the interface comparison
any(a) == any(b) - is total and returns true exactly when a equals b,
and CompareAndSwap never reaches the faulting branch: its
fault-explicit embedding returns .ok of exactly what the total
CompareAndSwap computes, in both engines. -/
theorem C9_equality_precondition {α : Type} [DecidableEq K] [DecidableEq α]
    (a b : GoValue α) (m : CASMap K (GoValue α))
    (m2 : RWMutexMap K (GoValue α)) (k : K) (vNew : GoValue α)
    (ha : comparableVal a = true) (hb : comparableVal b = true)
    (hm : ∀ p ∈ m.data, comparableVal p.2 = true)
    (hm2 : ∀ p ∈ m2.data, comparableVal p.2 = true) :
    (goEqAny a b = Except.ok (compare a b)) ∧
    (compare a b = true ↔ a = b) ∧
    (m.CompareAndSwapChecked k a vNew
      = Except.ok (m.CompareAndSwap k a vNew)) ∧
    (m2.CompareAndSwapChecked k a vNew
      = Except.ok (m2.CompareAndSwap k a vNew)) := by
  cases a with
  | noncmp t => simp [comparableVal] at ha
  | cmp x =>
    cases b with
    | noncmp t => simp [comparableVal] at hb
    | cmp y =>
      refine ⟨goEqAny_eq_ok_compare x y, by simp [compare], ?_, ?_⟩
      · rcases hl : goLookup k m.data with _ | cur
        · simp [CASMap.CompareAndSwapChecked, CASMap.CompareAndSwap,
            CASMap.load, hl]
        · have hcur : comparableVal cur = true :=
            hm (k, cur) (mem_of_goLookup m.data k cur hl)
          cases cur with
          | noncmp u => simp [comparableVal] at hcur
          | cmp c =>
            by_cases hcmp : c = x <;>
              simp [CASMap.CompareAndSwapChecked, CASMap.CompareAndSwap,
                CASMap.load, hl, goEqAny, compare, hcmp]
      · rcases hl : goLookup k m2.data with _ | cur
        · simp [RWMutexMap.CompareAndSwapChecked, RWMutexMap.CompareAndSwap,
            RWMutexMap.load, hl]
        · have hcur : comparableVal cur = true :=
            hm2 (k, cur) (mem_of_goLookup m2.data k cur hl)
          cases cur with
          | noncmp u => simp [comparableVal] at hcur
          | cmp c =>
            by_cases hcmp : c = x <;>
              simp [RWMutexMap.CompareAndSwapChecked, RWMutexMap.CompareAndSwap,
                RWMutexMap.load, hl, goEqAny, compare, hcmp]

/-- Witness for C9 at concrete comparable values: the interface
comparison returns .ok and the fault-explicit CompareAndSwap agrees
with the total one. -/
theorem C9_equality_precondition_witness :
    (goEqAny (GoValue.cmp (1 : Nat)) (GoValue.cmp 1)
      = Except.ok (compare (GoValue.cmp (1 : Nat)) (GoValue.cmp 1))) ∧
    ((⟨[("a", GoValue.cmp 1)]⟩ : CASMap String (GoValue Nat)).CompareAndSwapChecked
        "a" (GoValue.cmp 1) (GoValue.cmp 5)
      = Except.ok ((⟨[("a", GoValue.cmp 1)]⟩ :
          CASMap String (GoValue Nat)).CompareAndSwap "a"
          (GoValue.cmp 1) (GoValue.cmp 5))) := by
  have h := C9_equality_precondition (GoValue.cmp (1 : Nat)) (GoValue.cmp 1)
    (⟨[("a", GoValue.cmp 1)]⟩ : CASMap String (GoValue Nat))
    (⟨[]⟩ : RWMutexMap String (GoValue Nat)) "a" (GoValue.cmp 5)
    rfl rfl (by decide) (by decide)
  exact ⟨h.1, h.2.2.1⟩

/-- C10: for both engines (on a well-formed snapshot, which every run
from a fresh map maintains), Keys() returns a slice whose length equals
Len() containing every key of the current snapshot exactly once, and
Values() returns a slice whose length equals Len() listing, per key in
the same order, the value stored under it; both are built fresh from
one loaded snapshot and the container is left untouched (the embedded
functions read the snapshot only). -/
theorem C10_keys_values [DecidableEq K] [Inhabited V]
    (mc : CASMap K V) (mr : RWMutexMap K V)
    (hc : NodupKeys mc.data) (hr2 : NodupKeys mr.data) :
    (mc.Keys.length = mc.Len) ∧ (mc.Keys.Nodup) ∧
    (∀ k, k ∈ mc.Keys ↔ mc.Has k = true) ∧
    (mc.Values.length = mc.Len) ∧
    (mc.Values = mc.Keys.map fun k => (mc.Get k).1) ∧
    (mr.Keys.length = mr.Len) ∧ (mr.Keys.Nodup) ∧
    (∀ k, k ∈ mr.Keys ↔ mr.Has k = true) ∧
    (mr.Values.length = mr.Len) ∧
    (mr.Values = mr.Keys.map fun k => (mr.Get k).1) := by
  refine ⟨List.length_map _ _, hc, ?_, List.length_map _ _, ?_,
    List.length_map _ _, hr2, ?_, List.length_map _ _, ?_⟩
  · intro k
    exact (goLookup_isSome_iff_mem mc.data k).symm
  · show mc.data.map Prod.snd
      = (mc.data.map Prod.fst).map fun k => (mc.Get k).1
    rw [List.map_map]
    refine List.map_congr_left fun p hp => ?_
    obtain ⟨k, v⟩ := p
    have hlk := goLookup_of_mem mc.data k v hc hp
    simp [CASMap.Get, CASMap.load, hlk, Function.comp]
  · intro k
    exact (goLookup_isSome_iff_mem mr.data k).symm
  · show mr.data.map Prod.snd
      = (mr.data.map Prod.fst).map fun k => (mr.Get k).1
    rw [List.map_map]
    refine List.map_congr_left fun p hp => ?_
    obtain ⟨k, v⟩ := p
    have hlk := goLookup_of_mem mr.data k v hr2 hp
    simp [RWMutexMap.Get, RWMutexMap.load, hlk, Function.comp]

/-- Witness for C10 at a concrete snapshot with two distinct keys
holding equal values: keys are distinct, values keep the duplicate. -/
theorem C10_keys_values_witness :
    ((⟨[("a", 1), ("b", 1)]⟩ : CASMap String Nat).Keys.Nodup) ∧
    ((⟨[("a", 1), ("b", 1)]⟩ : CASMap String Nat).Values = [1, 1]) := by
  have h := C10_keys_values (⟨[("a", 1), ("b", 1)]⟩ : CASMap String Nat)
    (⟨[("a", 2)]⟩ : RWMutexMap String Nat) (by decide) (by decide)
  exact ⟨h.2.1, h.2.2.2.2.1.trans (by decide)⟩

end Mapx
